import Mathlib

/-!
Shallow embedding of `btclib/signmessage.py` and `btclib/varint.py`
(Bitcoin message signing with compact 65-byte signatures, and Bitcoin
variable-length integer encoding), together with theorems checking the
natural-language specification against the code.

Bytes are modelled as `List Nat` (each entry a value in `[0, 255]`),
Python integers as `Nat` (every integer the claims quantify over is
nonnegative), strings as `List Nat` of Unicode code points, and Python
exceptions as values of `PyErr` carried in `Except`.  The cryptographic
and address-codec collaborators imported by `signmessage.py` from modules
that are not part of this source tree are kept abstract in a record of
function parameters (`Collab`); their contracts, where a theorem needs them,
are stated as explicit hypotheses taken from the specification.
-/

/-- A raised Python exception: its class name and its message. -/
structure PyErr where
  kind : String
  msg : String
deriving DecidableEq

instance {ε α : Type} [DecidableEq ε] [DecidableEq α] : DecidableEq (Except ε α) :=
  fun a b =>
    match a, b with
    | .ok x, .ok y =>
      if h : x = y then isTrue (by rw [h]) else isFalse (fun hc => by cases hc; exact h rfl)
    | .error x, .error y =>
      if h : x = y then isTrue (by rw [h]) else isFalse (fun hc => by cases hc; exact h rfl)
    | .ok _, .error _ => isFalse (fun hc => by cases hc)
    | .error _, .ok _ => isFalse (fun hc => by cases hc)

/-- Python `int.to_bytes(k, 'big')`: big-endian, fixed width `k`
(callers guard the `OverflowError` case explicitly). -/
def toBytesBE : Nat → Nat → List Nat
  | 0, _ => []
  | k + 1, i => toBytesBE k (i / 256) ++ [i % 256]

/-- Python `int.from_bytes(bs, 'big')`. -/
def fromBytesBE (bs : List Nat) : Nat :=
  bs.foldl (fun acc b => acc * 256 + b) 0

/-- Python `int.to_bytes(k, 'little')`: little-endian, fixed width `k`. -/
def toBytesLE : Nat → Nat → List Nat
  | 0, _ => []
  | k + 1, i => i % 256 :: toBytesLE k (i / 256)

/-- Python `int.from_bytes(bs, 'little')`. -/
def fromBytesLE (bs : List Nat) : Nat :=
  bs.foldr (fun b acc => b + 256 * acc) 0

theorem toBytesBE_length : ∀ k i, (toBytesBE k i).length = k := by
  intro k
  induction k with
  | zero => intro i; rfl
  | succ k ih =>
    intro i
    simp [toBytesBE, ih]

theorem toBytesBE_lt : ∀ k i, ∀ b ∈ toBytesBE k i, b < 256 := by
  intro k
  induction k with
  | zero => intro i b hb; simp [toBytesBE] at hb
  | succ k ih =>
    intro i b hb
    simp only [toBytesBE, List.mem_append, List.mem_singleton] at hb
    rcases hb with hb | hb
    · exact ih _ b hb
    · omega

theorem fromBytesBE_toBytesBE : ∀ k i, i < 256 ^ k → fromBytesBE (toBytesBE k i) = i := by
  intro k
  induction k with
  | zero => intro i hi; interval_cases i; rfl
  | succ k ih =>
    intro i hi
    have hdiv : i / 256 < 256 ^ k := by
      rw [Nat.div_lt_iff_lt_mul (by norm_num)]
      calc i < 256 ^ (k + 1) := hi
        _ = 256 ^ k * 256 := by ring
    simp only [toBytesBE, fromBytesBE, List.foldl_append]
    have := ih (i / 256) hdiv
    simp only [fromBytesBE] at this
    simp only [List.foldl_cons, List.foldl_nil, this]
    omega

theorem toBytesLE_length : ∀ k i, (toBytesLE k i).length = k := by
  intro k
  induction k with
  | zero => intro i; rfl
  | succ k ih =>
    intro i
    simp [toBytesLE, ih]

theorem fromBytesLE_toBytesLE : ∀ k i, i < 256 ^ k → fromBytesLE (toBytesLE k i) = i := by
  intro k
  induction k with
  | zero => intro i hi; interval_cases i; rfl
  | succ k ih =>
    intro i hi
    have hdiv : i / 256 < 256 ^ k := by
      rw [Nat.div_lt_iff_lt_mul (by norm_num)]
      calc i < 256 ^ (k + 1) := hi
        _ = 256 ^ k * 256 := by ring
    simp only [toBytesLE, fromBytesLE, List.foldr_cons]
    have := ih (i / 256) hdiv
    simp only [fromBytesLE] at this
    rw [this]
    omega

theorem get?_none_of_le : ∀ (l : List Nat) (n : Nat), l.length ≤ n → l.get? n = none := by
  intro l n h
  exact List.get?_eq_none.mpr h

namespace varint

/-- `varint.decode` (btclib/varint.py lines 39-60): read one byte; the
prefixes 0xfd / 0xfe / 0xff mark the next 2 / 4 / 8 bytes as a
little-endian number, anything else is the number itself.  Reading the
first byte of an empty stream raises `IndexError`; a short read of the
payload bytes is not an error in the source (`int.from_bytes` accepts
fewer bytes), which `List.take` reproduces. -/
def decode (bs : List Nat) : Except PyErr Nat :=
  match bs with
  | [] => .error ⟨"IndexError", "index out of range"⟩
  | i :: rest =>
    if i = 0xfd then .ok (fromBytesLE (rest.take 2))
    else if i = 0xfe then .ok (fromBytesLE (rest.take 4))
    else if i = 0xff then .ok (fromBytesLE (rest.take 8))
    else .ok i

/-- `varint.encode` (btclib/varint.py lines 63-75): one byte up to 0xfc,
then 0xfd/0xfe/0xff prefixed little-endian payloads of 2/4/8 bytes, and
`ValueError` beyond 8 bytes. -/
def encode (i : Nat) : Except PyErr (List Nat) :=
  if i ≤ 0xfc then .ok [i]
  else if i ≤ 0xffff then .ok (0xfd :: toBytesLE 2 i)
  else if i ≤ 0xffffffff then .ok (0xfe :: toBytesLE 4 i)
  else if i ≤ 0xffffffffffffffff then .ok (0xff :: toBytesLE 8 i)
  else .error ⟨"ValueError", "integer too large for varint encoding"⟩

end varint

/-- C9: Varint round trip: for every integer i with
0 ≤ i ≤ 0xffffffffffffffff, decoding the encoding of i yields i back. -/
theorem C9_varint_round_trip (i : Nat) (h : i ≤ 0xffffffffffffffff) :
    ∃ bs, varint.encode i = .ok bs ∧ varint.decode bs = .ok i := by
  unfold varint.encode
  by_cases h1 : i ≤ 0xfc
  · refine ⟨[i], by simp [h1], ?_⟩
    unfold varint.decode
    have : ¬ i = 0xfd := by omega
    have : ¬ i = 0xfe := by omega
    have : ¬ i = 0xff := by omega
    simp_all
  · by_cases h2 : i ≤ 0xffff
    · refine ⟨0xfd :: toBytesLE 2 i, by simp [h1, h2], ?_⟩
      unfold varint.decode
      have hlen : (toBytesLE 2 i).length = 2 := toBytesLE_length 2 i
      have htake : (toBytesLE 2 i).take 2 = toBytesLE 2 i := by
        rw [← hlen]; exact List.take_length _
      simp only [htake]
      rw [fromBytesLE_toBytesLE 2 i (by norm_num; omega)]
      simp
    · by_cases h3 : i ≤ 0xffffffff
      · refine ⟨0xfe :: toBytesLE 4 i, by simp [h1, h2, h3], ?_⟩
        unfold varint.decode
        have hlen : (toBytesLE 4 i).length = 4 := toBytesLE_length 4 i
        have htake : (toBytesLE 4 i).take 4 = toBytesLE 4 i := by
          rw [← hlen]; exact List.take_length _
        simp only [htake]
        rw [fromBytesLE_toBytesLE 4 i (by norm_num; omega)]
        simp
      · refine ⟨0xff :: toBytesLE 8 i, by simp [h1, h2, h3, h], ?_⟩
        unfold varint.decode
        have hlen : (toBytesLE 8 i).length = 8 := toBytesLE_length 8 i
        have htake : (toBytesLE 8 i).take 8 = toBytesLE 8 i := by
          rw [← hlen]; exact List.take_length _
        simp only [htake]
        rw [fromBytesLE_toBytesLE 8 i (by norm_num; omega)]
        simp

/-- Witness for C9 at i = 300. -/
theorem C9_varint_round_trip_witness :
    ∃ bs, varint.encode 300 = .ok bs ∧ varint.decode bs = .ok 300 :=
  C9_varint_round_trip 300 (by norm_num)

/-- C10: varint.encode returns 1 byte for i ≤ 0xfc, 3 bytes with first
byte 0xfd for 0xfc < i ≤ 0xffff, 5 bytes with first byte 0xfe for
0xffff < i ≤ 0xffffffff, 9 bytes with first byte 0xff for
0xffffffff < i ≤ 0xffffffffffffffff, and raises ValueError above that. -/
theorem C10_varint_encode_cases (i : Nat) :
    (i ≤ 0xfc → varint.encode i = .ok [i]) ∧
    (0xfc < i → i ≤ 0xffff →
      ∃ bs, varint.encode i = .ok bs ∧ bs.length = 3 ∧ bs.headD 0 = 0xfd) ∧
    (0xffff < i → i ≤ 0xffffffff →
      ∃ bs, varint.encode i = .ok bs ∧ bs.length = 5 ∧ bs.headD 0 = 0xfe) ∧
    (0xffffffff < i → i ≤ 0xffffffffffffffff →
      ∃ bs, varint.encode i = .ok bs ∧ bs.length = 9 ∧ bs.headD 0 = 0xff) ∧
    (0xffffffffffffffff < i →
      varint.encode i = .error ⟨"ValueError", "integer too large for varint encoding"⟩) := by
  refine ⟨?_, ?_, ?_, ?_, ?_⟩
  · intro h; simp [varint.encode, h]
  · intro h1 h2
    refine ⟨0xfd :: toBytesLE 2 i, ?_, ?_, rfl⟩
    · unfold varint.encode; rw [if_neg (by omega), if_pos h2]
    · simp [toBytesLE_length]
  · intro h1 h2
    refine ⟨0xfe :: toBytesLE 4 i, ?_, ?_, rfl⟩
    · unfold varint.encode; rw [if_neg (by omega), if_neg (by omega), if_pos h2]
    · simp [toBytesLE_length]
  · intro h1 h2
    refine ⟨0xff :: toBytesLE 8 i, ?_, ?_, rfl⟩
    · unfold varint.encode
      rw [if_neg (by omega), if_neg (by omega), if_neg (by omega), if_pos h2]
    · simp [toBytesLE_length]
  · intro h
    unfold varint.encode
    rw [if_neg (by omega), if_neg (by omega), if_neg (by omega), if_neg (by omega)]

/-- Witness for C10: each of the five ranges exercised at a concrete
integer (80, 300, 70000, 2^32 + 5, 2^64 + 1). -/
theorem C10_varint_encode_cases_witness :
    varint.encode 80 = .ok [80] ∧
    (∃ bs, varint.encode 300 = .ok bs ∧ bs.length = 3 ∧ bs.headD 0 = 0xfd) ∧
    (∃ bs, varint.encode 70000 = .ok bs ∧ bs.length = 5 ∧ bs.headD 0 = 0xfe) ∧
    (∃ bs, varint.encode (2 ^ 32 + 5) = .ok bs ∧ bs.length = 9 ∧ bs.headD 0 = 0xff) ∧
    varint.encode (2 ^ 64 + 1) =
      .error ⟨"ValueError", "integer too large for varint encoding"⟩ :=
  ⟨(C10_varint_encode_cases 80).1 (by norm_num),
   (C10_varint_encode_cases 300).2.1 (by norm_num) (by norm_num),
   (C10_varint_encode_cases 70000).2.2.1 (by norm_num) (by norm_num),
   (C10_varint_encode_cases (2 ^ 32 + 5)).2.2.2.1 (by norm_num) (by norm_num),
   (C10_varint_encode_cases (2 ^ 64 + 1)).2.2.2.2 (by norm_num)⟩

/-- Modelled from the spec: base64 is one of the external "byte
utilities" (Python stdlib `base64.b64encode`), not part of this source
tree.  Standard RFC 4648 encoding of a 6-bit value to its ASCII code. -/
def b64chr (i : Nat) : Nat :=
  if i < 26 then 65 + i
  else if i < 52 then 71 + i
  else if i < 62 then i - 4
  else if i = 62 then 43
  else 47

/-- Modelled from the spec: inverse alphabet lookup for base64 decoding;
a code outside the alphabet raises `binascii.Error`. -/
def b64val (c : Nat) : Except PyErr Nat :=
  if 65 ≤ c ∧ c ≤ 90 then .ok (c - 65)
  else if 97 ≤ c ∧ c ≤ 122 then .ok (c - 71)
  else if 48 ≤ c ∧ c ≤ 57 then .ok (c + 4)
  else if c = 43 then .ok 62
  else if c = 47 then .ok 63
  else .error ⟨"binascii.Error", "Invalid base64-encoded string"⟩

/-- Modelled from the spec: `base64.b64encode` on a byte list, RFC 4648
with '=' (code 61) padding. -/
def b64encode : List Nat → List Nat
  | [] => []
  | [a] => [b64chr (a / 4), b64chr (a % 4 * 16), 61, 61]
  | [a, b] => [b64chr (a / 4), b64chr (a % 4 * 16 + b / 16), b64chr (b % 16 * 4), 61]
  | a :: b :: c :: rest =>
    b64chr (a / 4) :: b64chr (a % 4 * 16 + b / 16) :: b64chr (b % 16 * 4 + c / 64) ::
      b64chr (c % 64) :: b64encode rest

/-- Modelled from the spec: `base64.b64decode` on the codes of a base64
text, RFC 4648, strict about padding; it agrees with the stdlib codec on
every output of `b64encode`.  Malformed input raises `binascii.Error`. -/
def b64decode : List Nat → Except PyErr (List Nat)
  | [] => .ok []
  | c1 :: c2 :: c3 :: c4 :: rest =>
    match b64val c1, b64val c2 with
    | .ok v1, .ok v2 =>
      if c3 = 61 then
        if c4 = 61 ∧ rest = [] then .ok [v1 * 4 + v2 / 16]
        else .error ⟨"binascii.Error", "Invalid base64-encoded string"⟩
      else
        match b64val c3 with
        | .ok v3 =>
          if c4 = 61 then
            if rest = [] then .ok [v1 * 4 + v2 / 16, v2 % 16 * 16 + v3 / 4]
            else .error ⟨"binascii.Error", "Invalid base64-encoded string"⟩
          else
            match b64val c4 with
            | .ok v4 =>
              match b64decode rest with
              | .ok ds =>
                .ok ((v1 * 4 + v2 / 16) :: (v2 % 16 * 16 + v3 / 4) :: (v3 % 4 * 64 + v4) :: ds)
              | .error e => .error e
            | .error e => .error e
        | .error e => .error e
    | .error e, _ => .error e
    | _, .error e => .error e
  | _ => .error ⟨"binascii.Error",
      "Invalid base64-encoded string: number of data characters not divisible by 4"⟩

theorem b64val_chr_fin : ∀ v : Fin 64, b64val (b64chr v.val) = Except.ok v.val := by decide

theorem b64chr_ne61_fin : ∀ v : Fin 64, b64chr v.val ≠ 61 := by decide

theorem b64val_chr (v : Nat) (h : v < 64) : b64val (b64chr v) = Except.ok v :=
  b64val_chr_fin ⟨v, h⟩

theorem b64chr_ne61 (v : Nat) (h : v < 64) : b64chr v ≠ 61 :=
  b64chr_ne61_fin ⟨v, h⟩

theorem b64_round_trip :
    ∀ l : List Nat, (∀ b ∈ l, b < 256) → b64decode (b64encode l) = .ok l
  | [], _ => rfl
  | [a], h => by
    have ha : a < 256 := h a (by simp)
    have h1 : a / 4 < 64 := by omega
    have h2 : a % 4 * 16 < 64 := by omega
    simp [b64encode, b64decode, b64val_chr _ h1, b64val_chr _ h2]
    omega
  | [a, b], h => by
    have ha : a < 256 := h a (by simp)
    have hb : b < 256 := h b (by simp)
    have h1 : a / 4 < 64 := by omega
    have h2 : a % 4 * 16 + b / 16 < 64 := by omega
    have h3 : b % 16 * 4 < 64 := by omega
    simp [b64encode, b64decode, b64val_chr _ h1, b64val_chr _ h2, b64val_chr _ h3,
      b64chr_ne61 _ h3]
    omega
  | a :: b :: c :: rest, h => by
    have ha : a < 256 := h a (by simp)
    have hb : b < 256 := h b (by simp)
    have hc : c < 256 := h c (by simp)
    have ih := b64_round_trip rest (fun x hx => h x (by simp [hx]))
    have h1 : a / 4 < 64 := by omega
    have h2 : a % 4 * 16 + b / 16 < 64 := by omega
    have h3 : b % 16 * 4 + c / 64 < 64 := by omega
    have h4 : c % 64 < 64 := by omega
    simp [b64encode, b64decode, b64val_chr _ h1, b64val_chr _ h2, b64val_chr _ h3,
      b64val_chr _ h4, b64chr_ne61 _ h3, b64chr_ne61 _ h4, ih]
    omega

/-- UTF-8 encoding of a Unicode code point, as performed by Python
`str.encode()`: 1 byte below U+0080, 2 bytes below U+0800, 3 bytes below
U+10000, 4 bytes above. -/
def utf8EncodeChar (c : Nat) : List Nat :=
  if c < 0x80 then [c]
  else if c < 0x800 then [0xC0 + c / 64, 0x80 + c % 64]
  else if c < 0x10000 then [0xE0 + c / 4096, 0x80 + c / 64 % 64, 0x80 + c % 64]
  else [0xF0 + c / 262144, 0x80 + c / 4096 % 64, 0x80 + c / 64 % 64, 0x80 + c % 64]

/-- UTF-8 encoding of a string given as its list of code points. -/
def utf8Encode (s : List Nat) : List Nat :=
  (s.map utf8EncodeChar).flatten

/-- The magic prefix bytes b'\x18Bitcoin Signed Message:\n'
(btclib/signmessage.py line 159): 0x18 followed by the ASCII codes of
"Bitcoin Signed Message:" and a newline. -/
def magicHeader : List Nat :=
  [24, 66, 105, 116, 99, 111, 105, 110, 32, 83, 105, 103, 110, 101, 100, 32,
   77, 101, 115, 115, 97, 103, 101, 58, 10]

/-- The bytes `_magic_hash` feeds to sha256 (btclib/signmessage.py lines
158-162): the magic prefix, then `(chr(len(msg)) + msg).encode()`, i.e.
the UTF-8 encoding of the character whose code point is the message
length followed by the message characters. -/
def magicPayload (msg : List Nat) : List Nat :=
  magicHeader ++ utf8Encode (msg.length :: msg)

/-- Modelled from the spec: the collaborators `signmessage.py` imports
from modules that are not part of this source tree — `curve.mult`,
`dsa.sign`, `dsa.pubkey_recovery`, `utils.octets_from_point`,
`utils.h160`, `wifaddress.p2pkh_address`, `wifaddress.h160_from_address`,
`segwitaddress.decode` — plus the hash function `hashlib.sha256`.
Public keys are opaque `Nat` values; addresses, digests and serialized
keys are byte lists.  Spec contracts on these functions (such as
`pubkey_recovery` returning exactly 4 candidates, or the address codec
recovering the hash160 of the key bytes) are stated as hypotheses of the
theorems that need them. -/
structure Collab where
  mult : Nat → Nat
  octets_from_point : Nat → Bool → List Nat
  p2pkh_address : List Nat → String → List Nat
  h160_from_address : List Nat → Except PyErr (List Nat)
  h160 : List Nat → List Nat
  dsaSign : List Nat → Nat → Nat × Nat
  pubkey_recovery : List Nat → Nat × Nat → List Nat
  segwit_decode : List Nat → Except PyErr (String × Nat × List Nat)
  hf : List Nat → List Nat

/-- `_magic_hash` (btclib/signmessage.py lines 154-163): the hash of
`magicPayload`. -/
def _magic_hash (E : Collab) (msg : List Nat) : List Nat :=
  E.hf (magicPayload msg)

/-- The scan `for i in range(len(pubkeys)): if pubkeys[i] == pubkey:`
(btclib/signmessage.py lines 180-181): index of the first candidate equal
to the true public key. -/
def firstMatch (pubkey : Nat) : List Nat → Option Nat
  | [] => none
  | q :: rest =>
    if q = pubkey then some 0 else (firstMatch pubkey rest).map (fun j => j + 1)

/-- `msgsign` (btclib/signmessage.py lines 166-189): derive the public
key and P2PKH address, sign the magic hash, recover the candidate public
keys, find the index of the true key, pack the recovery flag
27 + i (+ 4 when compressed) in front of the 32-byte big-endian r and s,
and base64-encode.  `int.to_bytes(32, 'big')` raises `OverflowError` for
a value not fitting 32 bytes, hence the explicit guards; when no
candidate matches, the source raises `ValueError("Public key not
recovered")`. -/
def msgsign (E : Collab) (msg : List Nat) (prvkey : Nat) (compressed : Bool)
    (network : String) : Except PyErr (List Nat × List Nat) :=
  let pubkey := E.mult prvkey
  let pk := E.octets_from_point pubkey compressed
  let address := E.p2pkh_address pk network
  let magic_msg := _magic_hash E msg
  let sig := E.dsaSign magic_msg prvkey
  let pubkeys := E.pubkey_recovery magic_msg sig
  if sig.1 < 256 ^ 32 then
    if sig.2 < 256 ^ 32 then
      let bytes_sig := toBytesBE 32 sig.1 ++ toBytesBE 32 sig.2
      match firstMatch pubkey pubkeys with
      | some i =>
        let rf := 27 + i + (if compressed then 4 else 0)
        .ok (address, b64encode (rf :: bytes_sig))
      | none => .error ⟨"ValueError", "Public key not recovered"⟩
    else .error ⟨"OverflowError", "int too big to convert"⟩
  else .error ⟨"OverflowError", "int too big to convert"⟩

/-- The address comparison at the end of `_verify` (btclib/signmessage.py
lines 227-241), after the candidate key bytes `pk` have been selected:
flag below 35 compares against the P2PKH address hash; below 38 the
source's `native P2WPKH` branch decodes the bech32 witness program;
below 42 the source's `legacy P2WPKH-P2SH` branch hashes the
`0x0014{key-hash}` script; 42 and above raises. -/
def addrCheck (E : Collab) (addr : List Nat) (rf : Nat) (pk : List Nat) :
    Except PyErr Bool :=
  if rf < 35 then
    match E.h160_from_address addr with
    | .error e => .error e
    | .ok h => .ok (E.h160 pk == h)
  else if rf < 38 then
    match E.segwit_decode addr with
    | .error e => .error e
    | .ok (_, wv, wp) =>
      if wv ≠ 0 then .error ⟨"ValueError", "Invalid witness version: " ++ toString wv⟩
      else .ok (E.h160 pk == wp)
  else if rf < 42 then
    match E.h160_from_address addr with
    | .error e => .error e
    | .ok h => .ok (E.h160 (0x00 :: 0x14 :: E.h160 pk) == h)
  else .error ⟨"ValueError", "Invalid recovery flag: " ++ toString rf⟩

/-- `_verify` (btclib/signmessage.py lines 202-241): base64-decode,
require 65 bytes, parse r and s, recover the candidates, reject flag
below 27, select candidate `rf - 27` (uncompressed) or `rf - 31`
(compressed) — an out-of-range index raises `IndexError` — and compare
identities per `addrCheck`. -/
def _verify (E : Collab) (msg addr sig : List Nat) : Except PyErr Bool :=
  match b64decode sig with
  | .error e => .error e
  | .ok sigb =>
    if sigb.length ≠ 65 then
      .error ⟨"ValueError",
        "Wrong encoding length: " ++ toString sigb.length ++ " instead of 65"⟩
    else
      match sigb with
      | [] => .error ⟨"IndexError", "index out of range"⟩
      | rf :: rest =>
        let r := fromBytesBE (rest.take 32)
        let s := fromBytesBE (rest.drop 32)
        let magic_msg := _magic_hash E msg
        let pubkeys := E.pubkey_recovery magic_msg (r, s)
        if rf < 27 then .error ⟨"ValueError", "Invalid recovery flag: " ++ toString rf⟩
        else
          match (if rf < 31 then
                   (pubkeys.get? (rf - 27)).map (fun P => E.octets_from_point P false)
                 else
                   (pubkeys.get? (rf - 31)).map (fun P => E.octets_from_point P true)) with
          | none => .error ⟨"IndexError", "list index out of range"⟩
          | some pk => addrCheck E addr rf pk

/-- `verify` (btclib/signmessage.py lines 192-199): the try/except
wrapper turning any error raised by `_verify` into `False`. -/
def verify (E : Collab) (msg addr sig : List Nat) : Bool :=
  match _verify E msg addr sig with
  | .ok b => b
  | .error _ => false

theorem firstMatch_some : ∀ (l : List Nat) (pk i : Nat),
    firstMatch pk l = some i → i < l.length ∧ l.get? i = some pk := by
  intro l
  induction l with
  | nil => intro pk i h; simp [firstMatch] at h
  | cons q rest ih =>
    intro pk i h
    by_cases hq : q = pk
    · simp [firstMatch, hq] at h
      subst h
      simp [hq]
    · simp [firstMatch, hq] at h
      obtain ⟨j, hj, hji⟩ := h
      obtain ⟨hlt, hget⟩ := ih pk j hj
      subst hji
      constructor
      · simp; omega
      · simpa using hget

theorem firstMatch_none : ∀ (l : List Nat) (pk : Nat),
    (∀ q ∈ l, q ≠ pk) → firstMatch pk l = none := by
  intro l
  induction l with
  | nil => intro pk _; rfl
  | cons q rest ih =>
    intro pk h
    have hq : q ≠ pk := h q (by simp)
    simp [firstMatch, hq]
    exact ih pk (fun x hx => h x (by simp [hx]))

/-- A concrete instantiation of the external collaborators, used by the
witnesses: public keys are the private key itself, serialization and
hashing are the identity on byte lists, the deterministic signature of a
digest under key k is (k + 1, 1), and recovery returns the four
candidates [r - 1, 0, 0, 0] — so that the true key sits at index 0 and
every contract hypothesis used by the theorems is satisfied. -/
def collabT : Collab :=
  ⟨fun k => k,
   fun P _ => [P % 256],
   fun pk _ => pk,
   fun a => .ok a,
   fun x => x,
   fun _ k => (k + 1, 1),
   fun _ rs => [rs.1 - 1, 0, 0, 0],
   fun a => .ok ("bc", 0, a),
   fun x => x⟩

/-- A concrete instantiation whose public-key derivation disagrees with
recovery (mult k = k + 5 but the candidates are [r - 1, 0, 0, 0]), so
that the `Public key not recovered` branch of `msgsign` is reachable. -/
def collabMiss : Collab :=
  ⟨fun k => k + 5,
   fun P _ => [P % 256],
   fun pk _ => pk,
   fun a => .ok a,
   fun x => x,
   fun _ k => (k + 1, 1),
   fun _ rs => [rs.1 - 1, 0, 0, 0],
   fun a => .ok ("bc", 0, a),
   fun x => x⟩

theorem verify_err {E : Collab} {m a s : List Nat} {e : PyErr}
    (h : _verify E m a s = .error e) : verify E m a s = false := by
  simp [verify, h]

theorem verify_ok {E : Collab} {m a s : List Nat} {b : Bool}
    (h : _verify E m a s = .ok b) : verify E m a s = b := by
  simp [verify, h]

theorem _verify_cons (E : Collab) (msg addr sig : List Nat) (rf : Nat) (rest : List Nat)
    (hdec : b64decode sig = .ok (rf :: rest)) (hlen : rest.length = 64) :
    _verify E msg addr sig =
      (if rf < 27 then .error ⟨"ValueError", "Invalid recovery flag: " ++ toString rf⟩
       else
         match (if rf < 31 then
                  ((E.pubkey_recovery (_magic_hash E msg)
                      (fromBytesBE (rest.take 32), fromBytesBE (rest.drop 32))).get?
                    (rf - 27)).map (fun P => E.octets_from_point P false)
                else
                  ((E.pubkey_recovery (_magic_hash E msg)
                      (fromBytesBE (rest.take 32), fromBytesBE (rest.drop 32))).get?
                    (rf - 31)).map (fun P => E.octets_from_point P true)) with
          | none => .error ⟨"IndexError", "list index out of range"⟩
          | some pk => addrCheck E addr rf pk) := by
  simp only [_verify, hdec]
  rw [if_neg (by simp [hlen])]

/-- C4: verify is total and is exactly the error firewall over _verify:
whenever _verify raises, verify returns false, and whenever _verify
returns a boolean, verify returns that boolean. -/
theorem C4_verify_total_firewall (E : Collab) (msg addr sig : List Nat) :
    (∀ e, _verify E msg addr sig = .error e → verify E msg addr sig = false) ∧
    (∀ b, _verify E msg addr sig = .ok b → verify E msg addr sig = b) :=
  ⟨fun _ he => verify_err he, fun _ hb => verify_ok hb⟩

/-- Witness for C4: a malformed base64 signature (a single NUL byte)
makes _verify raise and verify return false. -/
theorem C4_verify_total_firewall_witness : verify collabT [] [] [0] = false :=
  (C4_verify_total_firewall collabT [] [] [0]).1
    ⟨"binascii.Error",
     "Invalid base64-encoded string: number of data characters not divisible by 4"⟩ rfl

/-- C7: whenever the base64-decoded signature does not have exactly 65
bytes, _verify raises ValueError (and verify returns false), before any
flag or key processing. -/
theorem C7_wrong_length_raises (E : Collab) (msg addr sig sigb : List Nat)
    (hdec : b64decode sig = .ok sigb) (hlen : sigb.length ≠ 65) :
    _verify E msg addr sig = .error ⟨"ValueError",
      "Wrong encoding length: " ++ toString sigb.length ++ " instead of 65"⟩ ∧
    verify E msg addr sig = false := by
  have h1 : _verify E msg addr sig = .error ⟨"ValueError",
      "Wrong encoding length: " ++ toString sigb.length ++ " instead of 65"⟩ := by
    simp only [_verify, hdec]
    rw [if_pos hlen]
  exact ⟨h1, verify_err h1⟩

/-- Witness for C7: a signature decoding to 3 bytes. -/
theorem C7_wrong_length_raises_witness :
    _verify collabT [] [] (b64encode [1, 2, 3]) = .error ⟨"ValueError",
      "Wrong encoding length: " ++ toString ([1, 2, 3] : List Nat).length ++
        " instead of 65"⟩ ∧
    verify collabT [] [] (b64encode [1, 2, 3]) = false :=
  C7_wrong_length_raises collabT [] [] (b64encode [1, 2, 3]) [1, 2, 3]
    (b64_round_trip [1, 2, 3] (by decide)) (by decide)

/-- C6: a 65-byte signature payload whose recovery-flag byte is 26
(below 27) or 43 (above the last handled flag) makes verify return
false. -/
theorem C6_flag_boundaries_false (E : Collab) (msg addr sig sigb : List Nat)
    (hdec : b64decode sig = .ok sigb) (hlen : sigb.length = 65)
    (hflag : sigb.headD 0 = 26 ∨ sigb.headD 0 = 43) :
    verify E msg addr sig = false := by
  cases sigb with
  | nil => simp at hlen
  | cons rf rest =>
    simp only [List.headD_cons] at hflag
    have hrest : rest.length = 64 := by simp at hlen; omega
    have hv := _verify_cons E msg addr sig rf rest hdec hrest
    rcases hflag with h | h <;> subst h
    · rw [if_pos (by norm_num)] at hv
      exact verify_err hv
    · rw [if_neg (by norm_num)] at hv
      rw [if_neg (by norm_num)] at hv
      cases hq : (E.pubkey_recovery (_magic_hash E msg)
          (fromBytesBE (rest.take 32), fromBytesBE (rest.drop 32))).get? (43 - 31) with
      | none =>
        rw [hq] at hv
        simp only [Option.map_none'] at hv
        exact verify_err hv
      | some P =>
        rw [hq] at hv
        simp only [Option.map_some'] at hv
        rw [show addrCheck E addr 43 (E.octets_from_point P true) = .error
            ⟨"ValueError", "Invalid recovery flag: " ++ toString 43⟩ from ?_] at hv
        · exact verify_err hv
        · unfold addrCheck
          rw [if_neg (by norm_num), if_neg (by norm_num), if_neg (by norm_num)]

/-- Witness for C6 at flag 26. -/
theorem C6_flag_boundaries_false_witness :
    verify collabT [] [] (b64encode (26 :: List.replicate 64 0)) = false :=
  C6_flag_boundaries_false collabT [] [] (b64encode (26 :: List.replicate 64 0))
    (26 :: List.replicate 64 0)
    (b64_round_trip (26 :: List.replicate 64 0) (by decide)) (by decide)
    (Or.inl (by decide))

/-- C1 fails on the code: evaluation at the flags the claim covers.  The
claim (and the module's own docstring table) says flag 35-38 selects
P2WPKH-P2SH verification with key_id = flag - 35 and flag 39-42 selects
P2WPKH bech32 with key_id = flag - 39.  The code instead branches
35-37 to bech32, 38-41 to P2WPKH-P2SH, rejects 42, and indexes the
candidate list at flag - 31 ∈ [4, 11]; with the 4-candidate recovery
list of the specification the lookup always raises IndexError, so every
signature carrying a segwit flag 35-42 is rejected, for every address. -/
theorem C1_segwit_flags_always_rejected (E : Collab) (msg addr sig sigb : List Nat)
    (hdec : b64decode sig = .ok sigb) (hlen : sigb.length = 65)
    (h35 : 35 ≤ sigb.headD 0) (h42 : sigb.headD 0 ≤ 42)
    (hrec : ∀ d rs, (E.pubkey_recovery d rs).length = 4) :
    verify E msg addr sig = false := by
  cases sigb with
  | nil => simp at hlen
  | cons rf rest =>
    simp only [List.headD_cons] at h35 h42
    have hrest : rest.length = 64 := by simp at hlen; omega
    have hv := _verify_cons E msg addr sig rf rest hdec hrest
    rw [if_neg (by omega)] at hv
    rw [if_neg (by omega)] at hv
    rw [get?_none_of_le _ _ (by rw [hrec]; omega)] at hv
    simp only [Option.map_none'] at hv
    exact verify_err hv

/-- Witness for C1 at flag 35 (the claim's P2WPKH-P2SH key_id = 0). -/
theorem C1_segwit_flags_always_rejected_witness :
    verify collabT [] [] (b64encode (35 :: List.replicate 64 0)) = false :=
  C1_segwit_flags_always_rejected collabT [] [] (b64encode (35 :: List.replicate 64 0))
    (35 :: List.replicate 64 0)
    (b64_round_trip (35 :: List.replicate 64 0) (by decide)) (by decide)
    (by decide) (by decide) (fun d rs => rfl)

set_option maxRecDepth 4000 in
/-- C3 fails on the code at a 128-character message: `chr(128).encode()`
is the two UTF-8 bytes [0xC2, 0x80], not the single byte [128], so the
bytes the code hashes (here exposed by the identity hash of `collabT`)
are not the header followed by a single length byte and the message. -/
theorem C3_length_byte_is_utf8_encoded :
    _magic_hash collabT (List.replicate 128 97) =
      magicHeader ++ [194, 128] ++ List.replicate 128 97 ∧
    magicHeader ++ [194, 128] ++ List.replicate 128 97 ≠
      magicHeader ++ [128] ++ List.replicate 128 97 := by
  constructor
  · decide
  · decide

/-- Counterexample to C8 as stated: when recovery misses the true key,
msgsign raises a plain ValueError — the very same exception kind the
code uses for user-input problems, such as a wrong signature length in
_verify or an oversized integer in varint.encode.  There is no separate
InternalInvariantError kind in the code. -/
theorem C8_counterexample :
    msgsign collabMiss [] 1 true "mainnet" =
      .error ⟨"ValueError", "Public key not recovered"⟩ ∧
    _verify collabT [] [] (b64encode [1, 2, 3]) =
      .error ⟨"ValueError", "Wrong encoding length: 3 instead of 65"⟩ ∧
    varint.encode (2 ^ 64 + 1) =
      .error ⟨"ValueError", "integer too large for varint encoding"⟩ ∧
    ("ValueError" : String) = "ValueError" := by
  refine ⟨by decide, by decide, by decide, rfl⟩

/-- C8 amended: when no recovered candidate equals the true public key
(and r, s fit 32 bytes so serialization succeeds first), msgsign fails
with ValueError("Public key not recovered") — same exception kind as the
user-input errors, distinguished only by its message. -/
theorem C8_no_candidate_raises_valueerror (E : Collab) (msg : List Nat) (prvkey : Nat)
    (compressed : Bool) (network : String)
    (hr : (E.dsaSign (_magic_hash E msg) prvkey).1 < 256 ^ 32)
    (hs : (E.dsaSign (_magic_hash E msg) prvkey).2 < 256 ^ 32)
    (hmiss : ∀ q ∈ E.pubkey_recovery (_magic_hash E msg)
        (E.dsaSign (_magic_hash E msg) prvkey), q ≠ E.mult prvkey) :
    msgsign E msg prvkey compressed network =
      .error ⟨"ValueError", "Public key not recovered"⟩ := by
  simp only [msgsign]
  rw [if_pos hr, if_pos hs, firstMatch_none _ _ hmiss]

/-- Witness for the amended C8, on the mismatching model instance. -/
theorem C8_no_candidate_raises_valueerror_witness :
    msgsign collabMiss [] 1 true "mainnet" =
      .error ⟨"ValueError", "Public key not recovered"⟩ :=
  C8_no_candidate_raises_valueerror collabMiss [] 1 true "mainnet"
    (by decide) (by decide) (by decide)

theorem msgsign_ok (E : Collab) (msg : List Nat) (prvkey : Nat) (compressed : Bool)
    (network : String) (addr sg : List Nat)
    (h : msgsign E msg prvkey compressed network = .ok (addr, sg)) :
    ∃ i, firstMatch (E.mult prvkey)
        (E.pubkey_recovery (_magic_hash E msg)
          (E.dsaSign (_magic_hash E msg) prvkey)) = some i ∧
      (E.dsaSign (_magic_hash E msg) prvkey).1 < 256 ^ 32 ∧
      (E.dsaSign (_magic_hash E msg) prvkey).2 < 256 ^ 32 ∧
      addr = E.p2pkh_address (E.octets_from_point (E.mult prvkey) compressed) network ∧
      sg = b64encode ((27 + i + (if compressed then 4 else 0)) ::
        (toBytesBE 32 (E.dsaSign (_magic_hash E msg) prvkey).1 ++
         toBytesBE 32 (E.dsaSign (_magic_hash E msg) prvkey).2)) := by
  simp only [msgsign] at h
  by_cases h1 : (E.dsaSign (_magic_hash E msg) prvkey).1 < 256 ^ 32
  · rw [if_pos h1] at h
    by_cases h2 : (E.dsaSign (_magic_hash E msg) prvkey).2 < 256 ^ 32
    · rw [if_pos h2] at h
      cases hm : firstMatch (E.mult prvkey)
          (E.pubkey_recovery (_magic_hash E msg)
            (E.dsaSign (_magic_hash E msg) prvkey)) with
      | none =>
        rw [hm] at h
        exact Except.noConfusion h
      | some i =>
        rw [hm] at h
        simp only [Except.ok.injEq, Prod.mk.injEq] at h
        exact ⟨i, rfl, h1, h2, h.1.symm, h.2.symm⟩
    · rw [if_neg h2] at h
      exact Except.noConfusion h
  · rw [if_neg h1] at h
    exact Except.noConfusion h

/-- C5: whenever msgsign succeeds, the base64-decoded signature is
exactly 65 bytes: one flag byte 27 + key_id + (4 if compressed else 0)
with key_id in [0, 3], then r and s as 32-byte big-endian integers.
The key_id bound uses the specification's contract that recovery yields
exactly 4 candidates. -/
theorem C5_signature_serialization (E : Collab) (msg : List Nat) (prvkey : Nat)
    (compressed : Bool) (network : String) (addr sg : List Nat)
    (hrec : ∀ d rs, (E.pubkey_recovery d rs).length = 4)
    (h : msgsign E msg prvkey compressed network = .ok (addr, sg)) :
    ∃ key_id r s, key_id ≤ 3 ∧
      E.dsaSign (_magic_hash E msg) prvkey = (r, s) ∧
      r < 256 ^ 32 ∧ s < 256 ^ 32 ∧
      b64decode sg = .ok ((27 + key_id + (if compressed then 4 else 0)) ::
        (toBytesBE 32 r ++ toBytesBE 32 s)) ∧
      ((27 + key_id + (if compressed then 4 else 0)) ::
        (toBytesBE 32 r ++ toBytesBE 32 s)).length = 65 := by
  obtain ⟨i, hm, h1, h2, ha, hsg⟩ := msgsign_ok E msg prvkey compressed network addr sg h
  have hi : i < 4 := by
    have hlt := (firstMatch_some _ _ _ hm).1
    rwa [hrec] at hlt
  have hite : (if compressed then 4 else 0 : Nat) ≤ 4 := by
    cases compressed <;> simp
  refine ⟨i, (E.dsaSign (_magic_hash E msg) prvkey).1,
    (E.dsaSign (_magic_hash E msg) prvkey).2, by omega, Prod.mk.eta.symm, h1, h2, ?_, ?_⟩
  · rw [hsg]
    apply b64_round_trip
    intro b hb
    simp only [List.mem_cons, List.mem_append] at hb
    rcases hb with hb | hb | hb
    · omega
    · exact toBytesBE_lt _ _ b hb
    · exact toBytesBE_lt _ _ b hb
  · simp [toBytesBE_length]

/-- Witness for C5: a successful signing run on the concrete model. -/
theorem C5_signature_serialization_witness :
    ∃ key_id r s, key_id ≤ 3 ∧
      collabT.dsaSign (_magic_hash collabT []) 1 = (r, s) ∧
      r < 256 ^ 32 ∧ s < 256 ^ 32 ∧
      b64decode (b64encode (31 :: (toBytesBE 32 2 ++ toBytesBE 32 1))) =
        .ok ((27 + key_id + (if true then 4 else 0)) ::
          (toBytesBE 32 r ++ toBytesBE 32 s)) ∧
      ((27 + key_id + (if true then 4 else 0)) ::
        (toBytesBE 32 r ++ toBytesBE 32 s)).length = 65 :=
  C5_signature_serialization collabT [] 1 true "mainnet"
    (collabT.p2pkh_address (collabT.octets_from_point (collabT.mult 1) true) "mainnet")
    (b64encode (31 :: (toBytesBE 32 2 ++ toBytesBE 32 1)))
    (fun d rs => rfl) (by decide)

/-- The group order n of secp256k1 (the curve `msgsign` and `_verify`
fix), bounding the valid private keys [1, n - 1]. -/
def secp256k1_n : Nat :=
  0xFFFFFFFFFFFFFFFFFFFFFFFFFFFFFFFEBAAEDCE6AF48A03BBFD25E8CD0364141

/-- C2: round trip.  For every private key in the valid range and every
message under 256 characters, a successful msgsign output verifies: the
contracts used are the specification's "recovery returns exactly 4
candidates" and "the address codec returns the hash160 of the key
bytes". -/
theorem C2_sign_verify_round_trip (E : Collab)
    (hrec : ∀ d rs, (E.pubkey_recovery d rs).length = 4)
    (haddr : ∀ pk net, E.h160_from_address (E.p2pkh_address pk net) = .ok (E.h160 pk))
    (msg : List Nat) (prvkey : Nat) (compressed : Bool) (network : String)
    (addr sg : List Nat)
    (hk1 : 0 < prvkey) (hk2 : prvkey < secp256k1_n) (hmsg : msg.length < 256)
    (h : msgsign E msg prvkey compressed network = .ok (addr, sg)) :
    verify E msg addr sg = true := by
  obtain ⟨i, hm, h1, h2, ha, hsg⟩ := msgsign_ok E msg prvkey compressed network addr sg h
  obtain ⟨hilen, hget⟩ := firstMatch_some _ _ _ hm
  rw [hrec] at hilen
  rcases hds : E.dsaSign (_magic_hash E msg) prvkey with ⟨r, s⟩
  simp only [hds] at h1 h2 hsg hget
  have hite : (if compressed then 4 else 0 : Nat) ≤ 4 := by
    cases compressed <;> simp
  have hbytes : ∀ b ∈ (27 + i + (if compressed then 4 else 0)) ::
      (toBytesBE 32 r ++ toBytesBE 32 s), b < 256 := by
    intro b hb
    simp only [List.mem_cons, List.mem_append] at hb
    rcases hb with hb | hb | hb
    · omega
    · exact toBytesBE_lt _ _ b hb
    · exact toBytesBE_lt _ _ b hb
  have hdec : b64decode sg = .ok ((27 + i + (if compressed then 4 else 0)) ::
      (toBytesBE 32 r ++ toBytesBE 32 s)) := by
    rw [hsg]
    exact b64_round_trip _ hbytes
  have hrest : (toBytesBE 32 r ++ toBytesBE 32 s).length = 64 := by
    simp [toBytesBE_length]
  have hv := _verify_cons E msg addr sg (27 + i + (if compressed then 4 else 0))
    (toBytesBE 32 r ++ toBytesBE 32 s) hdec hrest
  have htake : (toBytesBE 32 r ++ toBytesBE 32 s).take 32 = toBytesBE 32 r :=
    List.take_left' (toBytesBE_length 32 r)
  have hdrop : (toBytesBE 32 r ++ toBytesBE 32 s).drop 32 = toBytesBE 32 s :=
    List.drop_left' (toBytesBE_length 32 r)
  rw [htake, hdrop, fromBytesBE_toBytesBE 32 r h1, fromBytesBE_toBytesBE 32 s h2] at hv
  by_cases hcomp : compressed = true
  · have hc : (if compressed then 4 else 0 : Nat) = 4 := by simp [hcomp]
    rw [hc] at hv
    rw [if_neg (by omega)] at hv
    rw [if_neg (by omega)] at hv
    rw [show 27 + i + 4 - 31 = i by omega] at hv
    rw [hget] at hv
    simp only [Option.map_some'] at hv
    have hac : addrCheck E addr (27 + i + 4)
        (E.octets_from_point (E.mult prvkey) true) = .ok true := by
      unfold addrCheck
      rw [if_pos (by omega)]
      rw [ha, hcomp, haddr]
      simp
    rw [hac] at hv
    exact verify_ok hv
  · have hfalse : compressed = false := by simpa using hcomp
    have hc : (if compressed then 4 else 0 : Nat) = 0 := by simp [hfalse]
    rw [hc] at hv
    rw [if_neg (by omega)] at hv
    rw [if_pos (by omega)] at hv
    rw [show 27 + i + 0 - 27 = i by omega] at hv
    rw [hget] at hv
    simp only [Option.map_some'] at hv
    have hac : addrCheck E addr (27 + i + 0)
        (E.octets_from_point (E.mult prvkey) false) = .ok true := by
      unfold addrCheck
      rw [if_pos (by omega)]
      rw [ha, hfalse, haddr]
      simp
    rw [hac] at hv
    exact verify_ok hv

/-- Witness for C2: the concrete model, private key 1, empty message,
compressed, mainnet. -/
theorem C2_sign_verify_round_trip_witness :
    verify collabT []
      (collabT.p2pkh_address (collabT.octets_from_point (collabT.mult 1) true) "mainnet")
      (b64encode (31 :: (toBytesBE 32 2 ++ toBytesBE 32 1))) = true :=
  C2_sign_verify_round_trip collabT (fun d rs => rfl) (fun pk net => rfl)
    [] 1 true "mainnet"
    (collabT.p2pkh_address (collabT.octets_from_point (collabT.mult 1) true) "mainnet")
    (b64encode (31 :: (toBytesBE 32 2 ++ toBytesBE 32 1)))
    (by norm_num) (by norm_num [secp256k1_n]) (by norm_num) (by decide)
